import Mathlib

/-!
Verification of the StationCode.csv merge tool (tools/merge_station_codes.py).

Shallow embedding: Python dicts become association lists over the composite
key (AreaCode, LineCode, StationCode); the network fetch and CSV/hexadecimal
parsing boundary of the reference loader is modelled by a list of
already-parsed raw rows; file output is modelled by the list of rows the
serializer would write.
-/

namespace StationMerge

/-- Composite key: the (AreaCode, LineCode, StationCode) triple. -/
abbrev Key := Nat × Nat × Nat

/-- One station record, as produced by both loaders and by the merge. -/
structure Entry where
  AreaCode : Nat
  LineCode : Nat
  StationCode : Nat
  CompanyName : String
  LineName : String
  StationName : String
  Note : String
deriving DecidableEq, Inhabited, Repr

/-- Association-list lookup keyed by composite key, mirroring Python dict
indexing and membership tests. -/
def lookupK {α : Type} (k : Key) : List (Key × α) → Option α
  | [] => none
  | p :: rest => if p.1 = k then some p.2 else lookupK k rest

/-- Keys whose MasanoriYONO station name is forced, each with an optional
note to add (USE_YONO in the source). -/
def USE_YONO : List (Key × Option String) :=
  [((0, 6, 48), none),
   ((0, 41, 32), none),
   ((0, 41, 33), none),
   ((0, 41, 34), none),
   ((0, 42, 13), none),
   ((0, 16, 129), none),
   ((0, 16, 131), none),
   ((0, 17, 36), none),
   ((0, 157, 2), none),
   ((0, 212, 9), none),
   ((0, 214, 6), none),
   ((0, 250, 10), none),
   ((2, 157, 34), none),
   ((2, 158, 11), none),
   ((2, 158, 31), none),
   ((2, 165, 49), none),
   ((2, 197, 84), none),
   ((2, 197, 90), none),
   ((2, 231, 1), none),
   ((2, 231, 3), none),
   ((2, 239, 27), none),
   ((2, 255, 189), none),
   ((2, 255, 199), none),
   ((3, 215, 124), none),
   ((0, 7, 40), none),
   ((0, 80, 27), none),
   ((0, 83, 26), none),
   ((0, 11, 54), some "旧・城崎"),
   ((0, 36, 203), some "旧 東篠路"),
   ((0, 55, 193), some "2006.4.21廃止"),
   ((0, 55, 194), some "06.4.21廃止"),
   ((0, 55, 228), some "06.4.21廃止"),
   ((0, 55, 230), some "2006.4.21廃止"),
   ((0, 76, 1), some "旧、のと穴水"),
   ((1, 134, 90), some "6号線")]

/-- Keys whose current entry is forced (USE_CURRENT in the source). -/
def USE_CURRENT : List Key :=
  [(0, 0, 1), (0, 6, 47), (1, 129, 52), (1, 129, 66), (2, 148, 4), (2, 197, 86)]

/-- Dummy keys excluded from the reference dataset (EXCLUDE_YONO in the
source). -/
def EXCLUDE_YONO : List Key := [(3, 255, 255)]

/-- Post-merge station-name corrections (STATION_NAME_OVERRIDES in the
source). -/
def STATION_NAME_OVERRIDES : List (Key × String) :=
  [((0, 157, 2), "とうきょうスカイツリー")]

/-- Mojibake detection: flag the text when any character lies in the
codepoint range 0x80 to 0x24F (is_garbled in the source). -/
def is_garbled (text : String) : Bool :=
  text.data.any (fun ch => decide (0x80 ≤ ch.toNat ∧ ch.toNat ≤ 0x24F))

/-- Raw reference row, after the CSV and hexadecimal parsing boundary: the
three codes already parsed to naturals and the three raw text fields. -/
structure RawRow where
  area : Nat
  line : Nat
  station : Nat
  company : String
  lineName : String
  stationName : String
deriving Repr

/-- Characters of a string with leading and trailing whitespace removed,
modelling the Python strip method structurally. -/
def stripChars (l : List Char) : List Char :=
  ((l.dropWhile Char.isWhitespace).reverse.dropWhile Char.isWhitespace).reverse

/-- Whitespace stripping on strings (the strip calls of the loaders). -/
def strip (s : String) : String :=
  String.mk (stripChars s.data)

/-- Python dict assignment: replace the stored value in place when the key
already exists, append at the end otherwise. -/
def dictInsert : List (Key × Entry) → Key → Entry → List (Key × Entry)
  | [], k, v => [(k, v)]
  | p :: rest, k, v => if p.1 = k then (p.1, v) :: rest else p :: dictInsert rest k v

/-- Per-row body of the reference download loop (download_yono in the
source): strip the text fields, drop rows with an empty station name,
excluded keys and garbled rows, and otherwise insert with last-entry-wins
semantics and an empty Note. -/
def yonoProcessRow (entries : List (Key × Entry)) (row : RawRow) : List (Key × Entry) :=
  let company := strip row.company
  let lineName := strip row.lineName
  let stationName := strip row.stationName
  if stationName = "" then entries
  else
    let key : Key := (row.area, row.line, row.station)
    if key ∈ EXCLUDE_YONO then entries
    else if is_garbled company || is_garbled lineName || is_garbled stationName then entries
    else dictInsert entries key
      { AreaCode := row.area, LineCode := row.line, StationCode := row.station,
        CompanyName := company, LineName := lineName, StationName := stationName,
        Note := "" }

/-- Reference loader over the already-parsed rows (download_yono in the
source). -/
def download_yono (rows : List RawRow) : List (Key × Entry) :=
  rows.foldl yonoProcessRow []

/-- First candidate whose CompanyName is not the test sentinel, scanning in
list order: this is the for-loop inside pick_best_current in the source. -/
def findNonSentinel : List Entry → Option Entry
  | [] => none
  | c :: rest => if c.CompanyName ≠ "試験" then some c else findNonSentinel rest

/-- Best-entry selector over the duplicates of one current key
(pick_best_current in the source): first non-sentinel entry, else the first
entry; none only on the empty list, where the Python code would raise. -/
def pick_best_current (candidates : List Entry) : Option Entry :=
  match findNonSentinel candidates with
  | some c => some c
  | none => candidates.head?

/-- Total wrapper around pick_best_current used inside the resolver, where
the source only ever applies it to non-empty lists. -/
def pickBest (candidates : List Entry) : Entry :=
  (pick_best_current candidates).getD default

/-- Conditional note attachment, mirroring the Python truthiness test
on note_to_add: a None note or an empty-string note changes nothing. -/
def applyNote (noteToAdd : Option String) (e : Entry) : Entry :=
  match noteToAdd with
  | some n => if n = "" then e else { e with Note := n }
  | none => e

/-- Resolution of a single key of the merge loop (the five cases of merge in
the source); none exactly when the loop body leaves merged without the key. -/
def resolveEntry (uc : List Key) (uy : List (Key × Option String))
    (current : List (Key × List Entry)) (yono : List (Key × Entry)) (key : Key) :
    Option Entry :=
  if key ∈ uc then
    match lookupK key current with
    | some cands => some (pickBest cands)
    | none => lookupK key yono
  else
    match lookupK key uy with
    | some noteToAdd =>
      match lookupK key yono with
      | some ye =>
        match lookupK key current with
        | some cands => some (applyNote noteToAdd { pickBest cands with StationName := ye.StationName })
        | none => some (applyNote noteToAdd ye)
      | none =>
        match lookupK key current with
        | some cands => some (pickBest cands)
        | none => none
    | none =>
      match lookupK key current, lookupK key yono with
      | some cands, some ye =>
        if (pickBest cands).CompanyName = "試験" then some ye else some (pickBest cands)
      | some cands, none => some (pickBest cands)
      | none, some ye => some ye
      | none, none => none

/-- Amount added to the duplicates_removed statistic while resolving one
key, mirroring exactly the increments in merge in the source. -/
def dupDelta (uc : List Key) (uy : List (Key × Option String))
    (current : List (Key × List Entry)) (yono : List (Key × Entry)) (key : Key) :
    Nat :=
  if key ∈ uc then
    match lookupK key current with
    | some cands => if cands.length > 1 then cands.length - 1 else 0
    | none => 0
  else
    match lookupK key uy with
    | some _ =>
      match lookupK key yono, lookupK key current with
      | some _, some cands => if cands.length > 1 then cands.length - 1 else 0
      | _, _ => 0
    | none =>
      match lookupK key current with
      | some cands => if cands.length > 1 then cands.length - 1 else 0
      | none => 0

/-- Lexicographic order on composite keys, as Python sorts code triples. -/
def keyLe (a b : Key) : Bool :=
  decide (a.1 < b.1) ||
    (decide (a.1 = b.1) &&
      (decide (a.2.1 < b.2.1) || (decide (a.2.1 = b.2.1) && decide (a.2.2 ≤ b.2.2))))

/-- Insertion into a key list sorted by keyLe. -/
def insertSorted (k : Key) : List Key → List Key
  | [] => [k]
  | x :: xs => if keyLe k x then k :: x :: xs else x :: insertSorted k xs

/-- Insertion sort over keys, modelling the sorted builtin. -/
def sortKeys (ks : List Key) : List Key :=
  ks.foldr insertSorted []

/-- Sorted union of the key sets of the two input maps (sorted(all_keys) in
the source). -/
def allKeysOf (current : List (Key × List Entry)) (yono : List (Key × Entry)) : List Key :=
  sortKeys ((current.map Prod.fst ++ yono.map Prod.fst).dedup)

/-- Main resolution loop of merge in the source: one resolved entry per key
of the sorted union, before the station-name override pass. -/
def resolveAll (uc : List Key) (uy : List (Key × Option String))
    (current : List (Key × List Entry)) (yono : List (Key × Entry)) :
    List (Key × Entry) :=
  (allKeysOf current yono).filterMap
    (fun k => (resolveEntry uc uy current yono k).map (fun e => (k, e)))

/-- Total of the duplicates_removed statistic over a whole merge run. -/
def duplicatesRemoved (uc : List Key) (uy : List (Key × Option String))
    (current : List (Key × List Entry)) (yono : List (Key × Entry)) : Nat :=
  ((allKeysOf current yono).map (dupDelta uc uy current yono)).sum

/-- In-place station-name replacement for one override key, mirroring the
body of the final loop of merge in the source. -/
def setStationName (m : List (Key × Entry)) (key : Key) (name : String) :
    List (Key × Entry) :=
  if (lookupK key m).isSome then
    m.map (fun p => if p.1 = key then (p.1, { p.2 with StationName := name }) else p)
  else m

/-- Post-process override pass (the STATION_NAME_OVERRIDES loop at the end
of merge in the source). -/
def applyNameOverrides (overrides : List (Key × String)) (m : List (Key × Entry)) :
    List (Key × Entry) :=
  overrides.foldl (fun acc p => setStationName acc p.1 p.2) m

/-- Whole merge function of the source: resolve every key, then apply the
station-name overrides. -/
def merge (uc : List Key) (uy : List (Key × Option String))
    (overrides : List (Key × String))
    (current : List (Key × List Entry)) (yono : List (Key × Entry)) :
    List (Key × Entry) :=
  applyNameOverrides overrides (resolveAll uc uy current yono)

/-- The fixed verification checks (the checks list inside verify in the
source). -/
def checks : List (Key × String) :=
  [((0, 0, 1), "東京"),
   ((0, 1, 1), "東京"),
   ((0, 6, 47), "二日市"),
   ((0, 6, 48), "天拝山"),
   ((3, 231, 15), "天神"),
   ((3, 231, 25), "福岡空港"),
   ((2, 197, 86), "祇園四条"),
   ((2, 157, 34), "神戸三宮")]

/-- Invariant verifier (verify in the source): fold the all_ok flag over
the checks, failing on a missing key or a wrong station name. -/
def verify (merged : List (Key × Entry)) : Bool :=
  checks.foldl
    (fun allOk c =>
      match lookupK c.1 merged with
      | none => false
      | some e => if e.StationName ≠ c.2 then false else allOk)
    true

/-- Output row of one entry in the fixed column order (write_csv in the
source). -/
def entryRow (e : Entry) : List String :=
  [toString e.AreaCode, toString e.LineCode, toString e.StationCode,
   e.CompanyName, e.LineName, e.StationName, e.Note]

/-- CSV header row (HEADER in the source). -/
def HEADER : List String :=
  ["AreaCode", "LineCode", "StationCode", "CompanyName", "LineName", "StationName", "Note"]

/-- Serializer model (write_csv in the source): the header followed by one
row per entry in sorted key order. -/
def write_csv (merged : List (Key × Entry)) : List (List String) :=
  HEADER :: (sortKeys (merged.map Prod.fst)).filterMap
    (fun k => (lookupK k merged).map entryRow)

/-- Tail of the pipeline after the merge (steps 4 and 5 of main in the
source): a failed verification exits with status 1 before any file is
written; otherwise both destinations receive the same serialized rows. -/
def outputStep (merged : List (Key × Entry)) : Except Nat (List (List (List String))) :=
  if verify merged then Except.ok [write_csv merged, write_csv merged]
  else Except.error 1

/-! Concrete sample data used by the witness evaluations. -/

/-- Sample production current entry. -/
def entReal : Entry :=
  { AreaCode := 0, LineCode := 6, StationCode := 48, CompanyName := "JR九州",
    LineName := "鹿児島本線", StationName := "二日市", Note := "" }

/-- Sample sentinel test entry sharing the same key. -/
def entTest : Entry :=
  { AreaCode := 0, LineCode := 6, StationCode := 48, CompanyName := "試験",
    LineName := "試験線", StationName := "ダミー", Note := "" }

/-- Sample reference entry for the same key. -/
def entRef : Entry :=
  { AreaCode := 0, LineCode := 6, StationCode := 48, CompanyName := "参照社",
    LineName := "参照線", StationName := "天拝山", Note := "" }

/-- Sample current entry for the post-process override key. -/
def entSky : Entry :=
  { AreaCode := 0, LineCode := 157, StationCode := 2, CompanyName := "東武鉄道",
    LineName := "伊勢崎線", StationName := "とうきょうスカイツリー＋", Note := "" }

/-- Sample parsed reference row. -/
def rowTenpai : RawRow :=
  { area := 0, line := 6, station := 48, company := "JR九州",
    lineName := "鹿児島本線", stationName := "天拝山" }

/-- Current map used by the duplicates-counter counterexample: the key is in
USE_YONO and carries two current entries. -/
def cexCur : List (Key × List Entry) := [((0, 6, 48), [entTest, entReal])]

/-- Entry the reference loader builds from rowTenpai. -/
def entTenpai : Entry :=
  { AreaCode := 0, LineCode := 6, StationCode := 48, CompanyName := "JR九州",
    LineName := "鹿児島本線", StationName := "天拝山", Note := "" }

/-! Basic lemmas about the association-list operations. -/

theorem lookupK_isSome_iff {α : Type} (k : Key) (m : List (Key × α)) :
    (lookupK k m).isSome ↔ k ∈ m.map Prod.fst := by
  induction m with
  | nil => simp [lookupK]
  | cons p rest ih =>
    by_cases h : p.1 = k
    · simp [lookupK, h]
    · simp only [lookupK, if_neg h, List.map_cons, List.mem_cons, ih]
      constructor
      · exact Or.inr
      · rintro (hk | hk)
        · exact absurd hk.symm h
        · exact hk

theorem lookupK_eq_none_iff {α : Type} (k : Key) (m : List (Key × α)) :
    lookupK k m = none ↔ k ∉ m.map Prod.fst := by
  rw [← lookupK_isSome_iff, Option.not_isSome_iff_eq_none]

theorem mem_insertSorted (a k : Key) (l : List Key) :
    a ∈ insertSorted k l ↔ a = k ∨ a ∈ l := by
  induction l with
  | nil => simp [insertSorted]
  | cons x xs ih =>
    by_cases h : keyLe k x = true
    · simp [insertSorted, h, List.mem_cons]
    · simp only [insertSorted, if_neg h, List.mem_cons, ih]
      tauto

theorem mem_sortKeys (a : Key) (l : List Key) : a ∈ sortKeys l ↔ a ∈ l := by
  induction l with
  | nil => simp [sortKeys]
  | cons x xs ih =>
    show a ∈ insertSorted x (sortKeys xs) ↔ _
    rw [mem_insertSorted, ih, List.mem_cons]

theorem mem_allKeysOf (cur : List (Key × List Entry)) (yono : List (Key × Entry))
    (k : Key) :
    k ∈ allKeysOf cur yono ↔ (lookupK k cur).isSome ∨ (lookupK k yono).isSome := by
  rw [allKeysOf, mem_sortKeys, List.mem_dedup, List.mem_append,
    lookupK_isSome_iff, lookupK_isSome_iff]

theorem lookupK_filterMap_resolve (uc : List Key) (uy : List (Key × Option String))
    (cur : List (Key × List Entry)) (yono : List (Key × Entry))
    (ks : List Key) (k : Key) :
    lookupK k (ks.filterMap
        (fun k2 => (resolveEntry uc uy cur yono k2).map (fun e => (k2, e)))) =
      if k ∈ ks then resolveEntry uc uy cur yono k else none := by
  induction ks with
  | nil => simp [lookupK]
  | cons k1 rest ih =>
    cases hres : resolveEntry uc uy cur yono k1 with
    | none =>
      simp only [List.filterMap_cons, hres, Option.map_none']
      rw [ih]
      by_cases hk : k1 = k
      · subst hk
        simp [hres]
      · have hkk : ¬ k = k1 := fun h => hk h.symm
        simp [List.mem_cons, hkk]
    | some e =>
      simp only [List.filterMap_cons, hres, Option.map_some']
      by_cases hk : k1 = k
      · subst hk
        simp [lookupK, hres]
      · have hkk : ¬ k = k1 := fun h => hk h.symm
        simp only [lookupK, if_neg hk, ih, List.mem_cons]
        simp [hkk]

theorem lookupK_resolveAll (uc : List Key) (uy : List (Key × Option String))
    (cur : List (Key × List Entry)) (yono : List (Key × Entry)) (k : Key) :
    lookupK k (resolveAll uc uy cur yono) =
      if k ∈ allKeysOf cur yono then resolveEntry uc uy cur yono k else none :=
  lookupK_filterMap_resolve uc uy cur yono (allKeysOf cur yono) k

theorem resolveEntry_isSome (uc : List Key) (uy : List (Key × Option String))
    (cur : List (Key × List Entry)) (yono : List (Key × Entry)) (k : Key)
    (h : (lookupK k cur).isSome ∨ (lookupK k yono).isSome) :
    (resolveEntry uc uy cur yono k).isSome := by
  unfold resolveEntry
  by_cases huc : k ∈ uc
  · rw [if_pos huc]
    cases hc : lookupK k cur with
    | some cands => simp
    | none =>
      simp only
      rcases h with h | h
      · rw [hc] at h; exact absurd h (by simp)
      · exact h
  · rw [if_neg huc]
    cases hu : lookupK k uy with
    | some noteToAdd =>
      cases hy : lookupK k yono with
      | some ye => cases hc : lookupK k cur <;> simp
      | none =>
        cases hc : lookupK k cur with
        | some cands => simp
        | none =>
          rcases h with h | h
          · rw [hc] at h; exact absurd h (by simp)
          · rw [hy] at h; exact absurd h (by simp)
    | none =>
      cases hc : lookupK k cur with
      | some cands =>
        cases hy : lookupK k yono with
        | some ye => simp only; split <;> simp
        | none => simp
      | none =>
        cases hy : lookupK k yono with
        | some ye => simp
        | none =>
          rcases h with h | h
          · rw [hc] at h; exact absurd h (by simp)
          · rw [hy] at h; exact absurd h (by simp)

/-! Lemmas about the best-entry selector. -/

theorem findNonSentinel_eq_find (l : List Entry) :
    findNonSentinel l = l.find? (fun c => decide (c.CompanyName ≠ "試験")) := by
  induction l with
  | nil => rfl
  | cons c rest ih =>
    by_cases h : c.CompanyName ≠ "試験"
    · simp [findNonSentinel, h, List.find?_cons, ih]
    · simp [findNonSentinel, h, List.find?_cons, ih]

theorem findNonSentinel_mem (l : List Entry) (e : Entry)
    (h : findNonSentinel l = some e) : e ∈ l := by
  induction l with
  | nil => simp [findNonSentinel] at h
  | cons c rest ih =>
    by_cases hc : c.CompanyName ≠ "試験"
    · rw [findNonSentinel, if_pos hc] at h
      cases h
      exact List.mem_cons_self _ _
    · rw [findNonSentinel, if_neg hc] at h
      exact List.mem_cons_of_mem c (ih h)

theorem findNonSentinel_prop (l : List Entry) (e : Entry)
    (h : findNonSentinel l = some e) : e.CompanyName ≠ "試験" := by
  induction l with
  | nil => simp [findNonSentinel] at h
  | cons c rest ih =>
    by_cases hc : c.CompanyName ≠ "試験"
    · rw [findNonSentinel, if_pos hc] at h
      cases h
      exact hc
    · rw [findNonSentinel, if_neg hc] at h
      exact ih h

theorem findNonSentinel_eq_none (l : List Entry)
    (h : findNonSentinel l = none) : ∀ e ∈ l, e.CompanyName = "試験" := by
  induction l with
  | nil => intro e he; simp at he
  | cons c rest ih =>
    intro e he
    by_cases hc : c.CompanyName ≠ "試験"
    · rw [findNonSentinel, if_pos hc] at h
      cases h
    · rw [findNonSentinel, if_neg hc] at h
      rcases List.mem_cons.mp he with he | he
      · subst he; exact not_not.mp hc
      · exact ih h e he

theorem pick_best_current_mem (l : List Entry) (e : Entry)
    (h : pick_best_current l = some e) : e ∈ l := by
  unfold pick_best_current at h
  cases hf : findNonSentinel l with
  | some c =>
    rw [hf] at h
    cases h
    exact findNonSentinel_mem l _ hf
  | none =>
    rw [hf] at h
    exact List.mem_of_mem_head? h

theorem pick_best_current_isSome (l : List Entry) (h : l ≠ []) :
    (pick_best_current l).isSome := by
  unfold pick_best_current
  cases hf : findNonSentinel l with
  | some c => simp
  | none =>
    simp only
    cases l with
    | nil => exact absurd rfl h
    | cons c rest => simp

theorem pickBest_eq (l : List Entry) (e : Entry)
    (h : pick_best_current l = some e) : pickBest l = e := by
  rw [pickBest, h]
  rfl

/-! Lemmas about the post-process override pass. -/

theorem lookupK_cons {α : Type} (k : Key) (q : Key × α) (rest : List (Key × α)) :
    lookupK k (q :: rest) = if q.1 = k then some q.2 else lookupK k rest := rfl

theorem lookupK_mapUpdate (m : List (Key × Entry)) (key k : Key) (f : Entry → Entry) :
    lookupK k (m.map (fun p => if p.1 = key then (p.1, f p.2) else p)) =
      if key = k then (lookupK k m).map f else lookupK k m := by
  induction m with
  | nil => by_cases h : key = k <;> simp [lookupK, h]
  | cons p rest ih =>
    rw [List.map_cons]
    by_cases hpk : p.1 = key <;> by_cases hk : p.1 = k
    · have hkey : key = k := by rw [← hpk, hk]
      rw [if_pos hpk]
      simp [lookupK_cons, hk, hkey]
    · have hkey : ¬ key = k := fun h => hk (by rw [hpk, h])
      rw [if_pos hpk]
      simp [lookupK_cons, hk, hkey, ih]
    · have hkey : ¬ key = k := fun h => hpk (by rw [hk, h])
      rw [if_neg hpk]
      simp [lookupK_cons, hk, hkey]
    · rw [if_neg hpk]
      simp [lookupK_cons, hk, ih]

theorem lookupK_setStationName (m : List (Key × Entry)) (key k : Key) (name : String) :
    lookupK k (setStationName m key name) =
      if key = k then (lookupK k m).map (fun e => { e with StationName := name })
      else lookupK k m := by
  rw [setStationName]
  by_cases hs : (lookupK key m).isSome
  · rw [if_pos hs]
    exact lookupK_mapUpdate m key k (fun e => { e with StationName := name })
  · rw [if_neg hs]
    rw [Option.not_isSome_iff_eq_none] at hs
    by_cases hk : key = k
    · subst hk
      simp [hs]
    · rw [if_neg hk]

theorem lookupK_applyNameOverrides (ov : List (Key × String)) (m : List (Key × Entry))
    (k : Key) :
    lookupK k (applyNameOverrides ov m) =
      (lookupK k m).map
        (fun e => ov.foldl
          (fun acc p => if p.1 = k then { acc with StationName := p.2 } else acc) e) := by
  induction ov generalizing m with
  | nil =>
    cases h : lookupK k m <;> simp [applyNameOverrides, h]
  | cons q rest ih =>
    show lookupK k (applyNameOverrides rest (setStationName m q.1 q.2)) = _
    rw [ih, lookupK_setStationName]
    by_cases hq : q.1 = k
    · rw [if_pos hq]
      cases h : lookupK k m <;> simp [List.foldl_cons, hq, h]
    · rw [if_neg hq]
      cases h : lookupK k m <;> simp [List.foldl_cons, hq, h]

theorem foldl_override_id (ov : List (Key × String)) (k : Key) (e : Entry)
    (h : ∀ p ∈ ov, ¬ p.1 = k) :
    ov.foldl (fun acc p => if p.1 = k then { acc with StationName := p.2 } else acc) e
      = e := by
  induction ov generalizing e with
  | nil => rfl
  | cons q rest ih =>
    simp only [List.foldl_cons, if_neg (h q (List.mem_cons_self q rest))]
    exact ih e (fun p hp => h p (List.mem_cons_of_mem q hp))

theorem foldl_override_stationName_of_lookup (ov : List (Key × String)) (k : Key)
    (name : String) (e : Entry)
    (hnd : (ov.map Prod.fst).Nodup) (hov : lookupK k ov = some name) :
    (ov.foldl
      (fun acc p => if p.1 = k then { acc with StationName := p.2 } else acc)
      e).StationName = name := by
  induction ov generalizing e with
  | nil => simp [lookupK] at hov
  | cons q rest ih =>
    rw [List.map_cons, List.nodup_cons] at hnd
    by_cases hq : q.1 = k
    · rw [lookupK_cons, if_pos hq] at hov
      injection hov with hov
      subst hov
      simp only [List.foldl_cons, if_pos hq]
      have hnotin : ∀ p ∈ rest, ¬ p.1 = k := by
        intro p hp hpk
        apply hnd.1
        have hmem : p.1 ∈ rest.map Prod.fst := List.mem_map_of_mem Prod.fst hp
        rw [hq, ← hpk]
        exact hmem
      rw [foldl_override_id rest k _ hnotin]
    · rw [lookupK_cons, if_neg hq] at hov
      simp only [List.foldl_cons, if_neg hq]
      exact ih _ hnd.2 hov

theorem foldl_override_note (ov : List (Key × String)) (k : Key) (e : Entry) :
    (ov.foldl
      (fun acc p => if p.1 = k then { acc with StationName := p.2 } else acc)
      e).Note = e.Note := by
  induction ov generalizing e with
  | nil => rfl
  | cons q rest ih =>
    simp only [List.foldl_cons]
    by_cases hq : q.1 = k
    · rw [if_pos hq]; exact ih _
    · rw [if_neg hq]; exact ih _

/-! Lemmas about the reference loader. -/

theorem lookupK_dictInsert (m : List (Key × Entry)) (k k2 : Key) (v : Entry) :
    lookupK k2 (dictInsert m k v) = if k = k2 then some v else lookupK k2 m := by
  induction m with
  | nil => by_cases h : k = k2 <;> simp [dictInsert, lookupK, h]
  | cons p rest ih =>
    rw [dictInsert]
    by_cases hp : p.1 = k
    · rw [if_pos hp]
      by_cases hk2 : k = k2
      · simp [lookupK_cons, hp, hk2]
      · have hne : ¬ p.1 = k2 := fun h => hk2 (by rw [← hp, h])
        simp [lookupK_cons, hne, hk2]
    · rw [if_neg hp]
      by_cases hpk2 : p.1 = k2
      · have hne : ¬ k = k2 := fun h => hp (by rw [h, hpk2])
        simp [lookupK_cons, hpk2, hne]
      · simp [lookupK_cons, hpk2, ih]

theorem yonoProcessRow_spec (m : List (Key × Entry)) (row : RawRow)
    (hm : ∀ k e, lookupK k m = some e →
      k ∉ EXCLUDE_YONO ∧ is_garbled e.CompanyName = false ∧
        is_garbled e.LineName = false ∧ is_garbled e.StationName = false ∧
        e.Note = "") :
    ∀ k e, lookupK k (yonoProcessRow m row) = some e →
      k ∉ EXCLUDE_YONO ∧ is_garbled e.CompanyName = false ∧
        is_garbled e.LineName = false ∧ is_garbled e.StationName = false ∧
        e.Note = "" := by
  intro k e h
  simp only [yonoProcessRow] at h
  split_ifs at h with h1 h2 h3
  · exact hm k e h
  · exact hm k e h
  · exact hm k e h
  · rw [lookupK_dictInsert] at h
    split_ifs at h with h4
    · injection h with he
      subst he
      rw [Bool.or_eq_true, Bool.or_eq_true] at h3
      push_neg at h3
      refine ⟨?_, ?_, ?_, ?_, rfl⟩
      · rw [← h4]; exact h2
      · exact Bool.eq_false_iff.mpr h3.1.1
      · exact Bool.eq_false_iff.mpr h3.1.2
      · exact Bool.eq_false_iff.mpr h3.2
    · exact hm k e h

theorem download_yono_spec (rows : List RawRow) :
    ∀ k e, lookupK k (download_yono rows) = some e →
      k ∉ EXCLUDE_YONO ∧ is_garbled e.CompanyName = false ∧
        is_garbled e.LineName = false ∧ is_garbled e.StationName = false ∧
        e.Note = "" := by
  rw [download_yono]
  generalize hstart : ([] : List (Key × Entry)) = m0
  have hm0 : ∀ k e, lookupK k m0 = some e →
      k ∉ EXCLUDE_YONO ∧ is_garbled e.CompanyName = false ∧
        is_garbled e.LineName = false ∧ is_garbled e.StationName = false ∧
        e.Note = "" := by
    intro k e h
    rw [← hstart] at h
    simp [lookupK] at h
  clear hstart
  induction rows generalizing m0 with
  | nil => exact hm0
  | cons row rest ih =>
    rw [List.foldl_cons]
    exact ih (yonoProcessRow m0 row) (yonoProcessRow_spec m0 row hm0)

/-! Case equations of the resolver. -/

theorem resolveEntry_useCurrent_some (uc : List Key) (uy : List (Key × Option String))
    (cur : List (Key × List Entry)) (yono : List (Key × Entry)) (k : Key)
    (cands : List Entry)
    (huc : k ∈ uc) (hc : lookupK k cur = some cands) :
    resolveEntry uc uy cur yono k = some (pickBest cands) := by
  simp only [resolveEntry, if_pos huc, hc]

theorem resolveEntry_useCurrent_none (uc : List Key) (uy : List (Key × Option String))
    (cur : List (Key × List Entry)) (yono : List (Key × Entry)) (k : Key)
    (huc : k ∈ uc) (hc : lookupK k cur = none) :
    resolveEntry uc uy cur yono k = lookupK k yono := by
  simp only [resolveEntry, if_pos huc, hc]

theorem resolveEntry_useYono_both (uc : List Key) (uy : List (Key × Option String))
    (cur : List (Key × List Entry)) (yono : List (Key × Entry)) (k : Key)
    (noteOpt : Option String) (cands : List Entry) (ye : Entry)
    (huc : k ∉ uc) (huy : lookupK k uy = some noteOpt)
    (hy : lookupK k yono = some ye) (hc : lookupK k cur = some cands) :
    resolveEntry uc uy cur yono k =
      some (applyNote noteOpt { pickBest cands with StationName := ye.StationName }) := by
  simp only [resolveEntry, if_neg huc, huy, hy, hc]

theorem resolveEntry_useYono_refOnly (uc : List Key) (uy : List (Key × Option String))
    (cur : List (Key × List Entry)) (yono : List (Key × Entry)) (k : Key)
    (noteOpt : Option String) (ye : Entry)
    (huc : k ∉ uc) (huy : lookupK k uy = some noteOpt)
    (hy : lookupK k yono = some ye) (hc : lookupK k cur = none) :
    resolveEntry uc uy cur yono k = some (applyNote noteOpt ye) := by
  simp only [resolveEntry, if_neg huc, huy, hy, hc]

theorem resolveEntry_useYono_fallback (uc : List Key) (uy : List (Key × Option String))
    (cur : List (Key × List Entry)) (yono : List (Key × Entry)) (k : Key)
    (noteOpt : Option String) (cands : List Entry)
    (huc : k ∉ uc) (huy : lookupK k uy = some noteOpt)
    (hy : lookupK k yono = none) (hc : lookupK k cur = some cands) :
    resolveEntry uc uy cur yono k = some (pickBest cands) := by
  simp only [resolveEntry, if_neg huc, huy, hy, hc]

theorem resolveEntry_both (uc : List Key) (uy : List (Key × Option String))
    (cur : List (Key × List Entry)) (yono : List (Key × Entry)) (k : Key)
    (cands : List Entry) (ye : Entry)
    (huc : k ∉ uc) (huy : lookupK k uy = none)
    (hc : lookupK k cur = some cands) (hy : lookupK k yono = some ye) :
    resolveEntry uc uy cur yono k =
      if (pickBest cands).CompanyName = "試験" then some ye
      else some (pickBest cands) := by
  simp only [resolveEntry, if_neg huc, huy, hc, hy]

theorem resolveEntry_currentOnly (uc : List Key) (uy : List (Key × Option String))
    (cur : List (Key × List Entry)) (yono : List (Key × Entry)) (k : Key)
    (cands : List Entry)
    (huc : k ∉ uc) (huy : lookupK k uy = none)
    (hc : lookupK k cur = some cands) (hy : lookupK k yono = none) :
    resolveEntry uc uy cur yono k = some (pickBest cands) := by
  simp only [resolveEntry, if_neg huc, huy, hc, hy]

theorem resolveEntry_yonoOnly (uc : List Key) (uy : List (Key × Option String))
    (cur : List (Key × List Entry)) (yono : List (Key × Entry)) (k : Key)
    (ye : Entry)
    (huc : k ∉ uc) (huy : lookupK k uy = none)
    (hc : lookupK k cur = none) (hy : lookupK k yono = some ye) :
    resolveEntry uc uy cur yono k = some ye := by
  simp only [resolveEntry, if_neg huc, huy, hc, hy]

theorem lookupK_merge (uc : List Key) (uy : List (Key × Option String))
    (ov : List (Key × String)) (cur : List (Key × List Entry))
    (yono : List (Key × Entry)) (k : Key) :
    lookupK k (merge uc uy ov cur yono) =
      (lookupK k (resolveAll uc uy cur yono)).map
        (fun e => ov.foldl
          (fun acc p => if p.1 = k then { acc with StationName := p.2 } else acc) e) :=
  lookupK_applyNameOverrides ov _ k

/-! Lemmas about the verifier. -/

theorem foldl_verify_gen (l : List (Key × String)) (merged : List (Key × Entry)) (b : Bool) :
    l.foldl (fun allOk c =>
        match lookupK c.1 merged with
        | none => false
        | some e => if e.StationName ≠ c.2 then false else allOk) b =
      (b && l.all (fun c =>
        match lookupK c.1 merged with
        | none => false
        | some e => e.StationName == c.2)) := by
  induction l generalizing b with
  | nil => simp
  | cons c rest ih =>
    rw [List.foldl_cons, List.all_cons, ih]
    cases hlk : lookupK c.1 merged with
    | none => simp
    | some e =>
      by_cases hn : e.StationName = c.2
      · simp [hn]
      · simp [hn]

theorem verify_eq_all (merged : List (Key × Entry)) :
    verify merged = checks.all (fun c =>
      match lookupK c.1 merged with
      | none => false
      | some e => e.StationName == c.2) := by
  rw [verify, foldl_verify_gen, Bool.true_and]

/-! Lemmas about note provenance. -/

theorem applyNote_note (noteOpt : Option String) (e : Entry) :
    (applyNote noteOpt e).Note = e.Note ∨
      ∃ s, noteOpt = some s ∧ (applyNote noteOpt e).Note = s := by
  cases noteOpt with
  | none => exact Or.inl rfl
  | some n =>
    by_cases hn : n = ""
    · left
      simp [applyNote, hn]
    · right
      exact ⟨n, rfl, by simp [applyNote, hn]⟩

theorem pickBest_note_cases (cands : List Entry) :
    (pickBest cands).Note = "" ∨ ∃ e2 ∈ cands, (pickBest cands).Note = e2.Note := by
  cases hpb : pick_best_current cands with
  | none =>
    left
    simp only [pickBest, hpb]
    rfl
  | some b =>
    right
    exact ⟨b, pick_best_current_mem cands b hpb, by rw [pickBest_eq cands b hpb]⟩

theorem resolveEntry_useYono_missing (uc : List Key) (uy : List (Key × Option String))
    (cur : List (Key × List Entry)) (yono : List (Key × Entry)) (k : Key)
    (noteOpt : Option String)
    (huc : k ∉ uc) (huy : lookupK k uy = some noteOpt)
    (hy : lookupK k yono = none) (hc : lookupK k cur = none) :
    resolveEntry uc uy cur yono k = none := by
  simp only [resolveEntry, if_neg huc, huy, hy, hc]

theorem resolveEntry_noneCase (uc : List Key) (uy : List (Key × Option String))
    (cur : List (Key × List Entry)) (yono : List (Key × Entry)) (k : Key)
    (huc : k ∉ uc) (huy : lookupK k uy = none)
    (hc : lookupK k cur = none) (hy : lookupK k yono = none) :
    resolveEntry uc uy cur yono k = none := by
  simp only [resolveEntry, if_neg huc, huy, hc, hy]

theorem resolveEntry_note_cases (uc : List Key) (uy : List (Key × Option String))
    (cur : List (Key × List Entry)) (yono : List (Key × Entry)) (k : Key) (e : Entry)
    (hyn : ∀ k2 e2, lookupK k2 yono = some e2 → e2.Note = "")
    (h : resolveEntry uc uy cur yono k = some e) :
    e.Note = "" ∨
      (∃ cands e2, lookupK k cur = some cands ∧ e2 ∈ cands ∧ e.Note = e2.Note) ∨
      (∃ s, lookupK k uy = some (some s) ∧ e.Note = s) := by
  by_cases huc : k ∈ uc
  · cases hc : lookupK k cur with
    | some cands =>
      rw [resolveEntry_useCurrent_some uc uy cur yono k cands huc hc] at h
      injection h with he
      subst he
      rcases pickBest_note_cases cands with hnote | ⟨e2, hmem, hnote⟩
      · exact Or.inl hnote
      · exact Or.inr (Or.inl ⟨cands, e2, rfl, hmem, hnote⟩)
    | none =>
      rw [resolveEntry_useCurrent_none uc uy cur yono k huc hc] at h
      exact Or.inl (hyn k e h)
  · cases huy : lookupK k uy with
    | some noteOpt =>
      cases hy : lookupK k yono with
      | some ye =>
        cases hc : lookupK k cur with
        | some cands =>
          rw [resolveEntry_useYono_both uc uy cur yono k noteOpt cands ye huc huy hy hc] at h
          injection h with he
          subst he
          rcases applyNote_note noteOpt { pickBest cands with StationName := ye.StationName }
            with hnote | ⟨s, hs, hnote⟩
          · rw [hnote]
            rcases pickBest_note_cases cands with hnote2 | ⟨e2, hmem, hnote2⟩
            · exact Or.inl hnote2
            · exact Or.inr (Or.inl ⟨cands, e2, rfl, hmem, hnote2⟩)
          · subst hs
            exact Or.inr (Or.inr ⟨s, rfl, hnote⟩)
        | none =>
          rw [resolveEntry_useYono_refOnly uc uy cur yono k noteOpt ye huc huy hy hc] at h
          injection h with he
          subst he
          rcases applyNote_note noteOpt ye with hnote | ⟨s, hs, hnote⟩
          · rw [hnote]
            exact Or.inl (hyn k ye hy)
          · subst hs
            exact Or.inr (Or.inr ⟨s, rfl, hnote⟩)
      | none =>
        cases hc : lookupK k cur with
        | some cands =>
          rw [resolveEntry_useYono_fallback uc uy cur yono k noteOpt cands huc huy hy hc] at h
          injection h with he
          subst he
          rcases pickBest_note_cases cands with hnote | ⟨e2, hmem, hnote⟩
          · exact Or.inl hnote
          · exact Or.inr (Or.inl ⟨cands, e2, rfl, hmem, hnote⟩)
        | none =>
          rw [resolveEntry_useYono_missing uc uy cur yono k noteOpt huc huy hy hc] at h
          cases h
    | none =>
      cases hc : lookupK k cur with
      | some cands =>
        cases hy : lookupK k yono with
        | some ye =>
          rw [resolveEntry_both uc uy cur yono k cands ye huc huy hc hy] at h
          split_ifs at h with hs
          · injection h with he
            subst he
            exact Or.inl (hyn k ye hy)
          · injection h with he
            subst he
            rcases pickBest_note_cases cands with hnote | ⟨e2, hmem, hnote⟩
            · exact Or.inl hnote
            · exact Or.inr (Or.inl ⟨cands, e2, rfl, hmem, hnote⟩)
        | none =>
          rw [resolveEntry_currentOnly uc uy cur yono k cands huc huy hc hy] at h
          injection h with he
          subst he
          rcases pickBest_note_cases cands with hnote | ⟨e2, hmem, hnote⟩
          · exact Or.inl hnote
          · exact Or.inr (Or.inl ⟨cands, e2, rfl, hmem, hnote⟩)
      | none =>
        cases hy : lookupK k yono with
        | some ye =>
          rw [resolveEntry_yonoOnly uc uy cur yono k ye huc huy hc hy] at h
          injection h with he
          subst he
          exact Or.inl (hyn k ye hy)
        | none =>
          rw [resolveEntry_noneCase uc uy cur yono k huc huy hc hy] at h
          cases h

/-! Claim theorems. -/

/-- C1: for a key present in both maps and belonging to neither USE_CURRENT
(ForceCurrent) nor USE_YONO (ForceReference), the resolver merges the
reference entry when the best current entry carries the reserved test
sentinel company name 試験, and merges the best current entry otherwise. -/
theorem c1_both_present_sentinel_heuristic
    (uc : List Key) (uy : List (Key × Option String))
    (cur : List (Key × List Entry)) (yono : List (Key × Entry))
    (k : Key) (cands : List Entry) (ye best : Entry)
    (huc : k ∉ uc) (huy : lookupK k uy = none)
    (hc : lookupK k cur = some cands) (hy : lookupK k yono = some ye)
    (hbest : pick_best_current cands = some best) :
    lookupK k (resolveAll uc uy cur yono) =
      if best.CompanyName = "試験" then some ye else some best := by
  have hmem : k ∈ allKeysOf cur yono :=
    (mem_allKeysOf cur yono k).mpr (Or.inl (by rw [hc]; rfl))
  rw [lookupK_resolveAll, if_pos hmem,
    resolveEntry_both uc uy cur yono k cands ye huc huy hc hy,
    pickBest_eq cands best hbest]

/-- Witness for C1: two current entries with the sentinel first, so the best
current entry is the real one, which wins over the reference entry. -/
theorem c1_both_present_sentinel_heuristic_witness :
    lookupK (0, 6, 48)
        (resolveAll [] [] [((0, 6, 48), [entTest, entReal])] [((0, 6, 48), entRef)]) =
      if entReal.CompanyName = "試験" then some entRef else some entReal :=
  c1_both_present_sentinel_heuristic [] [] [((0, 6, 48), [entTest, entReal])]
    [((0, 6, 48), entRef)] (0, 6, 48) [entTest, entReal] entRef entReal
    (by simp) rfl rfl rfl (by decide)

/-- C2: for a key in the forced-current table the resolver returns the best
current entry whenever current data exists, regardless of the reference map,
and falls back to the reference entry, rather than dropping the key, when no
current data exists. -/
theorem c2_forced_current_precedence
    (uc : List Key) (uy : List (Key × Option String))
    (cur : List (Key × List Entry)) (yono : List (Key × Entry)) (k : Key)
    (huc : k ∈ uc) :
    (∀ cands best, lookupK k cur = some cands →
        pick_best_current cands = some best →
        lookupK k (resolveAll uc uy cur yono) = some best) ∧
      (∀ ye, lookupK k cur = none → lookupK k yono = some ye →
        lookupK k (resolveAll uc uy cur yono) = some ye) := by
  constructor
  · intro cands best hc hbest
    have hmem : k ∈ allKeysOf cur yono :=
      (mem_allKeysOf cur yono k).mpr (Or.inl (by rw [hc]; rfl))
    rw [lookupK_resolveAll, if_pos hmem,
      resolveEntry_useCurrent_some uc uy cur yono k cands huc hc,
      pickBest_eq cands best hbest]
  · intro ye hc hy
    have hmem : k ∈ allKeysOf cur yono :=
      (mem_allKeysOf cur yono k).mpr (Or.inr (by rw [hy]; rfl))
    rw [lookupK_resolveAll, if_pos hmem,
      resolveEntry_useCurrent_none uc uy cur yono k huc hc, hy]

/-- Witness for C2: a forced-current key with both a current and a
disagreeing reference entry merges to the current entry. -/
theorem c2_forced_current_precedence_witness :
    lookupK (0, 6, 47)
        (resolveAll [(0, 6, 47)] [] [((0, 6, 47), [entReal])] [((0, 6, 47), entRef)]) =
      some entReal :=
  (c2_forced_current_precedence [(0, 6, 47)] [] [((0, 6, 47), [entReal])]
    [((0, 6, 47), entRef)] (0, 6, 47) (by simp)).1 [entReal] entReal rfl (by decide)

/-- C3: for a forced-reference key present in both maps (and not forced
current), the merged entry takes its StationName from the reference entry,
all other fields from the best current entry, and its Note from the override
note when one is present (the table only ever carries non-empty notes) and
from the best current entry otherwise. -/
theorem c3_forced_reference_frame
    (uc : List Key) (uy : List (Key × Option String))
    (cur : List (Key × List Entry)) (yono : List (Key × Entry)) (k : Key)
    (noteOpt : Option String) (cands : List Entry) (ye best : Entry)
    (huc : k ∉ uc) (huy : lookupK k uy = some noteOpt)
    (hnote : noteOpt = none ∨ ∃ s, noteOpt = some s ∧ s ≠ "")
    (hy : lookupK k yono = some ye) (hc : lookupK k cur = some cands)
    (hbest : pick_best_current cands = some best) :
    ∃ m, lookupK k (resolveAll uc uy cur yono) = some m ∧
      m.StationName = ye.StationName ∧
      m.CompanyName = best.CompanyName ∧ m.LineName = best.LineName ∧
      m.AreaCode = best.AreaCode ∧ m.LineCode = best.LineCode ∧
      m.StationCode = best.StationCode ∧
      (∀ s, noteOpt = some s → m.Note = s) ∧
      (noteOpt = none → m.Note = best.Note) := by
  have hmem : k ∈ allKeysOf cur yono :=
    (mem_allKeysOf cur yono k).mpr (Or.inl (by rw [hc]; rfl))
  have hpb : pickBest cands = best := pickBest_eq cands best hbest
  have hres : lookupK k (resolveAll uc uy cur yono) =
      some (applyNote noteOpt { best with StationName := ye.StationName }) := by
    rw [lookupK_resolveAll, if_pos hmem,
      resolveEntry_useYono_both uc uy cur yono k noteOpt cands ye huc huy hy hc, hpb]
  rcases hnote with hnone | ⟨s, hsome, hne⟩
  · subst hnone
    refine ⟨{ best with StationName := ye.StationName }, hres, rfl, rfl, rfl, rfl, rfl,
      rfl, ?_, fun _ => rfl⟩
    intro s hs
    exact absurd hs (by simp)
  · subst hsome
    have hres2 : lookupK k (resolveAll uc uy cur yono) =
        some { best with StationName := ye.StationName, Note := s } := by
      rw [hres]
      simp [applyNote, hne]
    refine ⟨{ best with StationName := ye.StationName, Note := s }, hres2, rfl, rfl, rfl,
      rfl, rfl, rfl, ?_, ?_⟩
    · intro s2 hs2
      exact Option.some.inj hs2
    · intro hcon
      exact absurd hcon (by simp)

/-- Witness for C3: a forced-reference key with note 旧・城崎, one current
entry and one reference entry merges to the reference station name over the
current company. -/
theorem c3_forced_reference_frame_witness :
    (lookupK (0, 6, 48)
        (resolveAll [] [((0, 6, 48), some "旧・城崎")] [((0, 6, 48), [entReal])]
          [((0, 6, 48), entRef)])).map Entry.StationName = some "天拝山" := by
  obtain ⟨m, hm, hst, -, -, -, -, -, -, -⟩ :=
    c3_forced_reference_frame [] [((0, 6, 48), some "旧・城崎")]
      [((0, 6, 48), [entReal])] [((0, 6, 48), entRef)] (0, 6, 48)
      (some "旧・城崎") [entReal] entRef entReal
      (by simp) rfl (Or.inr ⟨"旧・城崎", rfl, by decide⟩) rfl rfl (by decide)
  rw [hm, Option.map_some', hst]
  rfl

/-- C4: the post-process pass gives the name-override table final say: for
every key present in both the merged map and the override table the merged
StationName equals the override value, whichever resolution case produced
the entry, and a key the resolver did not produce is never added by the
pass. -/
theorem c4_name_override_final_say
    (uc : List Key) (uy : List (Key × Option String)) (ov : List (Key × String))
    (cur : List (Key × List Entry)) (yono : List (Key × Entry)) (k : Key)
    (hnd : (ov.map Prod.fst).Nodup) :
    (∀ name e, lookupK k ov = some name →
        lookupK k (merge uc uy ov cur yono) = some e → e.StationName = name) ∧
      (lookupK k (resolveAll uc uy cur yono) = none →
        lookupK k (merge uc uy ov cur yono) = none) := by
  constructor
  · intro name e hov hme
    rw [lookupK_merge] at hme
    cases hra : lookupK k (resolveAll uc uy cur yono) with
    | none =>
      rw [hra] at hme
      cases hme
    | some e0 =>
      rw [hra, Option.map_some'] at hme
      injection hme with hme
      rw [← hme]
      exact foldl_override_stationName_of_lookup ov k name e0 hnd hov
  · intro hra
    rw [lookupK_merge, hra]
    rfl

/-- Witness for C4: the とうきょうスカイツリー override corrects the merged
station name produced from a current-only entry. -/
theorem c4_name_override_final_say_witness :
    (lookupK (0, 157, 2)
        (merge [] [] STATION_NAME_OVERRIDES [((0, 157, 2), [entSky])] [])).map
      Entry.StationName = some "とうきょうスカイツリー" := by
  have hconc : lookupK (0, 157, 2)
      (merge [] [] STATION_NAME_OVERRIDES [((0, 157, 2), [entSky])] []) =
      some { entSky with StationName := "とうきょうスカイツリー" } := by decide
  have hname := (c4_name_override_final_say [] [] STATION_NAME_OVERRIDES
    [((0, 157, 2), [entSky])] [] (0, 157, 2) (by decide)).1 "とうきょうスカイツリー"
    { entSky with StationName := "とうきょうスカイツリー" } rfl hconc
  rw [hconc, Option.map_some', hname]

/-- C5: the key set of the merged map is exactly the union of the current
and reference key sets, and a key of EXCLUDE_YONO never enters the
reference map produced by the loader. -/
theorem c5_key_conservation
    (uc : List Key) (uy : List (Key × Option String)) (ov : List (Key × String))
    (cur : List (Key × List Entry)) (yono : List (Key × Entry)) :
    (∀ k, (lookupK k (merge uc uy ov cur yono)).isSome ↔
        ((lookupK k cur).isSome ∨ (lookupK k yono).isSome)) ∧
      (∀ rows k, (lookupK k (download_yono rows)).isSome → k ∉ EXCLUDE_YONO) := by
  constructor
  · intro k
    have hmap : ∀ (o : Option Entry) (f : Entry → Entry), (o.map f).isSome = o.isSome := by
      intro o f
      cases o <;> rfl
    rw [lookupK_merge, hmap, lookupK_resolveAll]
    constructor
    · intro h
      by_cases hmem : k ∈ allKeysOf cur yono
      · exact (mem_allKeysOf cur yono k).mp hmem
      · rw [if_neg hmem] at h
        simp at h
    · intro h
      have hmem : k ∈ allKeysOf cur yono := (mem_allKeysOf cur yono k).mpr h
      rw [if_pos hmem]
      exact resolveEntry_isSome uc uy cur yono k h
  · intro rows k h
    obtain ⟨e, he⟩ := Option.isSome_iff_exists.mp h
    exact (download_yono_spec rows k e he).1

/-- Witness for C5: the key loaded from the sample reference row is not an
excluded key. -/
theorem c5_key_conservation_witness :
    ((0, 6, 48) : Key) ∉ EXCLUDE_YONO :=
  (c5_key_conservation [] [] [] [] []).2 [rowTenpai] (0, 6, 48) (by decide)

/-- C6: verify returns false exactly when some checked key is missing from
the merged map or carries a station name other than the expected one, and a
false verification makes the pipeline exit with status 1 before writing any
output (modelled by outputStep returning an error instead of the serialized
destinations). -/
theorem c6_verification_gate (merged : List (Key × Entry)) :
    (verify merged = false ↔
        ∃ c ∈ checks, lookupK c.1 merged = none ∨
          ∃ e, lookupK c.1 merged = some e ∧ e.StationName ≠ c.2) ∧
      (verify merged = false → outputStep merged = Except.error 1) := by
  constructor
  · rw [verify_eq_all, Bool.eq_false_iff, Ne, List.all_eq_true]
    constructor
    · intro hno
      push_neg at hno
      obtain ⟨c, hc, hfail⟩ := hno
      refine ⟨c, hc, ?_⟩
      cases hlk : lookupK c.1 merged with
      | none => exact Or.inl rfl
      | some e =>
        right
        refine ⟨e, rfl, ?_⟩
        intro hname
        apply hfail
        rw [hlk]
        simp [hname]
    · rintro ⟨c, hc, hfail⟩ hall
      have hcheck := hall c hc
      rcases hfail with hnone | ⟨e, he, hne⟩
      · rw [hnone] at hcheck
        exact absurd hcheck (by simp)
      · rw [he] at hcheck
        simp only [beq_iff_eq] at hcheck
        exact hne hcheck
  · intro hf
    rw [outputStep, if_neg (by simp [hf])]

/-- Witness for C6: the empty merged map fails verification, so the output
step exits with status 1. -/
theorem c6_verification_gate_witness :
    outputStep [] = Except.error 1 :=
  (c6_verification_gate []).2 (by decide)

/-- C7: is_garbled flags exactly the texts containing a codepoint in the
inclusive range 0x80 to 0x24F, and every entry admitted to the reference map
has no garbled field. -/
theorem c7_garbled_detector
    (text : String) (rows : List RawRow) (k : Key) (e : Entry) :
    (is_garbled text = true ↔
        ∃ ch ∈ text.data, 0x80 ≤ ch.toNat ∧ ch.toNat ≤ 0x24F) ∧
      (lookupK k (download_yono rows) = some e →
        is_garbled e.CompanyName = false ∧ is_garbled e.LineName = false ∧
          is_garbled e.StationName = false) := by
  constructor
  · rw [is_garbled, List.any_eq_true]
    constructor
    · rintro ⟨ch, hch, hd⟩
      exact ⟨ch, hch, of_decide_eq_true hd⟩
    · rintro ⟨ch, hch, hd⟩
      exact ⟨ch, hch, decide_eq_true hd⟩
  · intro h
    obtain ⟨-, h1, h2, h3, -⟩ := download_yono_spec rows k e h
    exact ⟨h1, h2, h3⟩

/-- Witness for C7: a Latin-1 character is flagged as garbled, and the entry
loaded from the sample reference row has an unflagged station name. -/
theorem c7_garbled_detector_witness :
    is_garbled "é" = true ∧ is_garbled "天拝山" = false := by
  constructor
  · exact (c7_garbled_detector "é" [] (0, 0, 0) entTenpai).1.mpr
      ⟨'é', by decide, by decide⟩
  · exact ((c7_garbled_detector "" [rowTenpai] (0, 6, 48) entTenpai).2 (by decide)).2.2

/-- C8: on a non-empty candidate list the selector returns the first entry
in list order whose CompanyName is not the sentinel 試験, or the first
element when every entry is a sentinel; either way the result is an element
of the input list. -/
theorem c8_pick_best_spec (l : List Entry) (h : l ≠ []) :
    ∃ e, pick_best_current l = some e ∧ e ∈ l ∧
      (l.find? (fun c => decide (c.CompanyName ≠ "試験")) = some e ∨
        ((∀ x ∈ l, x.CompanyName = "試験") ∧ l.head? = some e)) := by
  cases hf : findNonSentinel l with
  | some c =>
    refine ⟨c, ?_, findNonSentinel_mem l c hf, Or.inl ?_⟩
    · rw [pick_best_current, hf]
    · rw [← findNonSentinel_eq_find]
      exact hf
  | none =>
    cases l with
    | nil => exact absurd rfl h
    | cons c rest =>
      refine ⟨c, ?_, List.mem_cons_self _ _, Or.inr ⟨findNonSentinel_eq_none _ hf, rfl⟩⟩
      rw [pick_best_current, hf]
      rfl

/-- Witness for C8: with a sentinel entry first, the selector returns the
later real entry. -/
theorem c8_pick_best_spec_witness :
    pick_best_current [entTest, entReal] = some entReal := by
  obtain ⟨e, he, hmem, hcase⟩ := c8_pick_best_spec [entTest, entReal] (by simp)
  rcases hcase with hfind | ⟨hall, hhead⟩
  · have hconc : [entTest, entReal].find? (fun c => decide (c.CompanyName ≠ "試験")) =
        some entReal := by decide
    rw [hconc] at hfind
    rw [he]
    exact hfind.symm
  · exact absurd (hall entReal (by simp)) (by decide)

/-- C9 (amended): resolving a key that has current candidates adds
length - 1 to the duplicates-removed counter in the forced-current case, in
the forced-reference case when the key is also in the reference map, and in
the no-override cases; but in the forced-reference fallback, where the key
is absent from the reference map, the counter is left unchanged even though
the selector runs. -/
theorem c9_duplicates_counter_amended
    (uc : List Key) (uy : List (Key × Option String))
    (cur : List (Key × List Entry)) (yono : List (Key × Entry)) (k : Key)
    (cands : List Entry) (hc : lookupK k cur = some cands) :
    (k ∈ uc → dupDelta uc uy cur yono k = cands.length - 1) ∧
      (k ∉ uc → ∀ noteOpt, lookupK k uy = some noteOpt →
        ((lookupK k yono).isSome → dupDelta uc uy cur yono k = cands.length - 1) ∧
          (lookupK k yono = none → dupDelta uc uy cur yono k = 0)) ∧
      (k ∉ uc → lookupK k uy = none →
        dupDelta uc uy cur yono k = cands.length - 1) := by
  have hguard : (if cands.length > 1 then cands.length - 1 else 0) = cands.length - 1 := by
    split
    · rfl
    · omega
  refine ⟨?_, ?_, ?_⟩
  · intro huc
    simp only [dupDelta, if_pos huc, hc, hguard]
  · intro huc noteOpt huy
    constructor
    · intro hy
      obtain ⟨ye, hye⟩ := Option.isSome_iff_exists.mp hy
      simp only [dupDelta, if_neg huc, huy, hye, hc, hguard]
    · intro hy
      simp only [dupDelta, if_neg huc, huy, hy, hc]
  · intro huc huy
    simp only [dupDelta, if_neg huc, huy, hc, hguard]

/-- Witness for C9 (amended): with no override tables, a key with two
current candidates contributes one removed duplicate. -/
theorem c9_duplicates_counter_amended_witness :
    dupDelta [] [] cexCur [] (0, 6, 48) = 1 :=
  (c9_duplicates_counter_amended [] [] cexCur [] (0, 6, 48) [entTest, entReal]
    rfl).2.2 (by simp) rfl

/-- Counterexample for C9 as stated: key (0,6,48) belongs to USE_YONO and is
absent from the reference map, the resolver still selects through the
best-entry selector from two current candidates, yet the duplicates-removed
counter gains 0 rather than length - 1 = 1. -/
theorem c9_duplicates_counter_counterexample :
    lookupK (0, 6, 48) USE_YONO = some none ∧
      lookupK (0, 6, 48) cexCur = some [entTest, entReal] ∧
      lookupK (0, 6, 48) ([] : List (Key × Entry)) = none ∧
      resolveEntry USE_CURRENT USE_YONO cexCur [] (0, 6, 48) =
        some (pickBest [entTest, entReal]) ∧
      [entTest, entReal].length - 1 = 1 ∧
      dupDelta USE_CURRENT USE_YONO cexCur [] (0, 6, 48) = 0 ∧
      dupDelta USE_CURRENT USE_YONO cexCur [] (0, 6, 48) ≠
        [entTest, entReal].length - 1 := by
  decide

/-- C10: every reference-loader entry has an empty Note; hence a key only in
the reference map with no override merges with an empty Note, and a
non-empty merged Note can only come from a current entry or from a
forced-reference override note. -/
theorem c10_note_provenance
    (rows : List RawRow)
    (uc : List Key) (uy : List (Key × Option String)) (ov : List (Key × String))
    (cur : List (Key × List Entry)) (yono : List (Key × Entry)) (k : Key) :
    (∀ k2 e2, lookupK k2 (download_yono rows) = some e2 → e2.Note = "") ∧
      ((∀ k2 e2, lookupK k2 yono = some e2 → e2.Note = "") →
        (∀ e, lookupK k cur = none → lookupK k uy = none → k ∉ uc →
          lookupK k (merge uc uy ov cur yono) = some e → e.Note = "") ∧
        (∀ e, lookupK k (merge uc uy ov cur yono) = some e → e.Note ≠ "" →
          (∃ cands e2, lookupK k cur = some cands ∧ e2 ∈ cands ∧ e.Note = e2.Note) ∨
            (∃ s, lookupK k uy = some (some s) ∧ e.Note = s))) := by
  have extract : ∀ e, lookupK k (merge uc uy ov cur yono) = some e →
      ∃ e0, resolveEntry uc uy cur yono k = some e0 ∧ e.Note = e0.Note := by
    intro e hme
    rw [lookupK_merge] at hme
    cases hra : lookupK k (resolveAll uc uy cur yono) with
    | none =>
      rw [hra] at hme
      cases hme
    | some e0 =>
      rw [hra, Option.map_some'] at hme
      injection hme with hme
      refine ⟨e0, ?_, ?_⟩
      · rw [lookupK_resolveAll] at hra
        by_cases hmem : k ∈ allKeysOf cur yono
        · rw [if_pos hmem] at hra
          exact hra
        · rw [if_neg hmem] at hra
          cases hra
      · rw [← hme]
        exact foldl_override_note ov k e0
  refine ⟨?_, ?_⟩
  · intro k2 e2 h
    exact (download_yono_spec rows k2 e2 h).2.2.2.2
  · intro hyn
    constructor
    · intro e hc huy huc hme
      obtain ⟨e0, hres, hnote⟩ := extract e hme
      rw [hnote]
      cases hy : lookupK k yono with
      | some ye =>
        rw [resolveEntry_yonoOnly uc uy cur yono k ye huc huy hc hy] at hres
        injection hres with hres
        rw [hres] at hy
        exact hyn k e0 hy
      | none =>
        rw [resolveEntry_noneCase uc uy cur yono k huc huy hc hy] at hres
        cases hres
    · intro e hme hne
      obtain ⟨e0, hres, hnote⟩ := extract e hme
      rcases resolveEntry_note_cases uc uy cur yono k e0 hyn hres with
        hempty | ⟨cands, e2, hc2, hmem2, hn2⟩ | ⟨s, huy2, hn2⟩
      · exact absurd (hnote.trans hempty) hne
      · exact Or.inl ⟨cands, e2, hc2, hmem2, hnote.trans hn2⟩
      · exact Or.inr ⟨s, huy2, hnote.trans hn2⟩

/-- Witness for C10: the entry built from the sample reference row has an
empty Note. -/
theorem c10_note_provenance_witness :
    entTenpai.Note = "" :=
  (c10_note_provenance [rowTenpai] [] [] [] [] [] (0, 6, 48)).1 (0, 6, 48)
    entTenpai (by decide)

end StationMerge
